import Mathlib

/-!
Shallow embedding of the MemeFi NEAR contract (`src/src/lib.rs`).

Modelling conventions:
* `LookupMap<K, V>` is modelled as a function `K → Option V`; `Vector<T>`
  as `List T`; `UnorderedSet<String>` as a `List String` kept duplicate-free
  by the operations (the code guards every insert with a membership check).
* The ambient NEAR environment is made explicit: `env::predecessor_account_id()`
  becomes a `caller : String` parameter and `env::block_timestamp()` a
  `time : Nat` parameter of each mutating operation.
* Machine integers (`u8`, `u32`, `u64`, `u128`) are modelled as `Nat`.
  The only subtractions in the code are `saturating_sub`, which coincides
  with truncated `Nat` subtraction.  Rust's `str::len` is UTF-8 byte length,
  modelled by `rustLen`; `str::trim` removes leading/trailing whitespace,
  modelled by `rustTrim` over `Char.isWhitespace`.
* Each public method that can `panic!`/`assert!` is modelled as a function
  returning `Except Err Contract`: a NEAR panic aborts the transaction and
  reverts every store, which is exactly the `Except.error` case with the
  pre-state kept (see `applyOp`).
-/

/-- `MemeNFT` record from the source (all integer fields as `Nat`). -/
structure MemeNFT where
  id : String
  owner_id : String
  creator_id : String
  media_url : String
  title : String
  description : String
  royalty : Nat
  likes_count : Nat
  comments_count : Nat
  last_like_timestamp : Nat
deriving DecidableEq, Repr

/-- `Comment` record from the source. -/
structure Comment where
  user_id : String
  text : String
  timestamp : Nat
deriving DecidableEq, Repr

/-- `UserStats` record from the source. -/
structure UserStats where
  total_likes : Nat
  total_comments : Nat
  total_earnings : Nat
deriving DecidableEq, Repr

/-- The `Default` value used by `unwrap_or_default()` on `UserStats`. -/
def UserStats.zero : UserStats := ⟨0, 0, 0⟩

/-- The panic/assert conditions of the contract, one per distinct message. -/
inductive Err where
  /-- "Meme ID already exists" -/
  | duplicateId
  /-- "Royalty must be between 0 and 100" -/
  | invalidRoyalty
  /-- "Meme not found" -/
  | memeNotFound
  /-- "User already liked this meme" -/
  | alreadyLiked
  /-- "No likes found for meme" -/
  | noLikesFound
  /-- "User has not liked this meme" -/
  | notLiked
  /-- "Comment text cannot be empty" -/
  | emptyComment
  /-- "Comment text too long (max 500 characters)" -/
  | commentTooLong
deriving DecidableEq, Repr

/-- The persistent state of `MemeFiContract`. -/
structure Contract where
  memes : String → Option MemeNFT
  all_memes : List String
  likes : String → Option (List String)
  comments : String → Option (List Comment)
  listings : String → Option Nat
  user_stats : String → Option UserStats

/-- Point update of a modelled `LookupMap` (its `insert`). -/
def setMap {α : Type} (m : String → Option α) (k : String) (v : α) :
    String → Option α :=
  fun x => if x = k then some v else m x

/-- The state built by `MemeFiContract::new()`: every store empty. -/
def initContract : Contract :=
  { memes := fun _ => none
    all_memes := []
    likes := fun _ => none
    comments := fun _ => none
    listings := fun _ => none
    user_stats := fun _ => none }

/-- Rust `str::len`: the UTF-8 byte length of the string. -/
def rustLen (s : String) : Nat := (s.data.map Char.utf8Size).sum

/-- Rust `str::trim`: drop leading and trailing whitespace. -/
def rustTrim (s : String) : String :=
  ⟨((s.data.dropWhile Char.isWhitespace).reverse.dropWhile
      Char.isWhitespace).reverse⟩

/-- `mint_meme` (lib.rs lines 78-107).  The royalty assert runs before the
duplicate-id check, mirroring the source order. -/
def mintMeme (c : Contract) (id media_url title description : String)
    (royalty : Nat) (caller : String) : Except Err Contract :=
  if 100 < royalty then .error .invalidRoyalty
  else if (c.memes id).isSome then .error .duplicateId
  else
    let meme : MemeNFT :=
      { id := id, owner_id := caller, creator_id := caller
        media_url := media_url, title := title, description := description
        royalty := royalty, likes_count := 0, comments_count := 0
        last_like_timestamp := 0 }
    .ok { c with memes := setMap c.memes id meme
                 all_memes := c.all_memes ++ [id] }

/-- `like_meme` (lib.rs lines 143-166). -/
def likeMeme (c : Contract) (meme_id caller : String) (time : Nat) :
    Except Err Contract :=
  match c.memes meme_id with
  | none => .error .memeNotFound
  | some meme =>
    let liked_users := (c.likes meme_id).getD []
    if caller ∈ liked_users then .error .alreadyLiked
    else
      let meme' := { meme with likes_count := meme.likes_count + 1
                               last_like_timestamp := time }
      let stats := (c.user_stats meme.owner_id).getD UserStats.zero
      let stats' := { stats with total_likes := stats.total_likes + 1 }
      .ok { c with likes := setMap c.likes meme_id (caller :: liked_users)
                   memes := setMap c.memes meme_id meme'
                   user_stats := setMap c.user_stats meme.owner_id stats' }

/-- `unlike_meme` (lib.rs lines 168-186). -/
def unlikeMeme (c : Contract) (meme_id caller : String) :
    Except Err Contract :=
  match c.memes meme_id with
  | none => .error .memeNotFound
  | some meme =>
    match c.likes meme_id with
    | none => .error .noLikesFound
    | some liked_users =>
      if caller ∈ liked_users then
        let meme' := { meme with likes_count := meme.likes_count - 1 }
        let stats := (c.user_stats meme.owner_id).getD UserStats.zero
        let stats' := { stats with total_likes := stats.total_likes - 1 }
        .ok { c with likes := setMap c.likes meme_id (liked_users.erase caller)
                     memes := setMap c.memes meme_id meme'
                     user_stats := setMap c.user_stats meme.owner_id stats' }
      else .error .notLiked

/-- `comment_meme` (lib.rs lines 188-213).  The empty-text assert runs before
the length assert, mirroring the source order. -/
def commentMeme (c : Contract) (meme_id text caller : String) (time : Nat) :
    Except Err Contract :=
  match c.memes meme_id with
  | none => .error .memeNotFound
  | some meme =>
    if (rustTrim text).isEmpty then .error .emptyComment
    else if 500 < rustLen text then .error .commentTooLong
    else
      let log := (c.comments meme_id).getD []
      let comment : Comment :=
        { user_id := caller, text := rustTrim text, timestamp := time }
      let meme' := { meme with comments_count := meme.comments_count + 1 }
      let stats := (c.user_stats meme.owner_id).getD UserStats.zero
      let stats' := { stats with total_comments := stats.total_comments + 1 }
      .ok { c with comments := setMap c.comments meme_id (log ++ [comment])
                   memes := setMap c.memes meme_id meme'
                   user_stats := setMap c.user_stats meme.owner_id stats' }

/-- `get_meme` (lib.rs lines 109-111). -/
def getMeme (c : Contract) (id : String) : Option MemeNFT := c.memes id

/-- `get_all_memes` (lib.rs lines 125-137): paginated scan of `all_memes`. -/
def getAllMemes (c : Contract) (from_index limit : Option Nat) :
    List MemeNFT :=
  let f := from_index.getD 0
  let lim := min (limit.getD 50) 100
  (List.range' f (min (f + lim) c.all_memes.length - f)).filterMap
    (fun i => (c.all_memes.get? i).bind fun meme_id => c.memes meme_id)

/-- `get_memes_count` (lib.rs lines 139-141). -/
def getMemesCount (c : Contract) : Nat := c.all_memes.length

/-- `get_comments` (lib.rs lines 215-221). -/
def getComments (c : Contract) (meme_id : String) : List Comment :=
  match c.comments meme_id with
  | some comments => comments
  | none => []

/-- `get_likes` (lib.rs lines 223-229). -/
def getLikes (c : Contract) (meme_id : String) : Nat :=
  match c.likes meme_id with
  | some s => s.length
  | none => 0

/-- One public mutating call, with the ambient identity and clock explicit. -/
inductive Op where
  | mint (id media_url title description : String) (royalty : Nat)
      (caller : String)
  | like (meme_id caller : String) (time : Nat)
  | unlike (meme_id caller : String)
  | comment (meme_id text caller : String) (time : Nat)
deriving DecidableEq, Repr

/-- NEAR transaction semantics: a panic reverts to the pre-call state. -/
def commit (r : Except Err Contract) (c : Contract) : Contract :=
  match r with
  | .ok c' => c'
  | .error _ => c

/-- Run one call against the state, reverting on failure. -/
def applyOp (c : Contract) (op : Op) : Contract :=
  match op with
  | .mint id mu t d r caller => commit (mintMeme c id mu t d r caller) c
  | .like mid caller time => commit (likeMeme c mid caller time) c
  | .unlike mid caller => commit (unlikeMeme c mid caller) c
  | .comment mid text caller time => commit (commentMeme c mid text caller time) c

/-- Run a sequence of calls. -/
def runOps (c : Contract) (ops : List Op) : Contract := ops.foldl applyOp c

/-- States reachable from the freshly initialized ledger. -/
def Reachable (c : Contract) : Prop := ∃ ops : List Op, runOps initContract ops = c

/-- The like set stored for a meme id (empty when never created). -/
def likeList (c : Contract) (id : String) : List String := (c.likes id).getD []

/-- The comment log stored for a meme id (empty when never created). -/
def commentList (c : Contract) (id : String) : List Comment :=
  (c.comments id).getD []

/-- The stats stored for an identity (zero when never created). -/
def statsOf (c : Contract) (u : String) : UserStats :=
  (c.user_stats u).getD UserStats.zero

/-- Contribution of one registry slot to identity `u`'s like total. -/
def likesWeight (c : Contract) (u id : String) : Nat :=
  match c.memes id with
  | some m => if m.owner_id = u then m.likes_count else 0
  | none => 0

/-- Contribution of one registry slot to identity `u`'s comment total. -/
def commentsWeight (c : Contract) (u id : String) : Nat :=
  match c.memes id with
  | some m => if m.owner_id = u then m.comments_count else 0
  | none => 0

/-- Sum of `likes_count` over all records owned by `u`. -/
def ownedLikesSum (c : Contract) (u : String) : Nat :=
  (c.all_memes.map (likesWeight c u)).sum

/-- Sum of `comments_count` over all records owned by `u`. -/
def ownedCommentsSum (c : Contract) (u : String) : Nat :=
  (c.all_memes.map (commentsWeight c u)).sum

/-- Success discriminator for a call result. -/
def isOk (r : Except Err Contract) : Bool :=
  match r with
  | .ok _ => true
  | .error _ => false

/-- The error produced by a call, if any (decidable observation of a result). -/
def errOf (r : Except Err Contract) : Option Err :=
  match r with
  | .ok _ => none
  | .error e => some e

theorem setMap_same {α : Type} (m : String → Option α) (k : String) (v : α) :
    setMap m k v k = some v := by
  simp [setMap]

theorem setMap_ne {α : Type} (m : String → Option α) {k x : String} (v : α)
    (h : x ≠ k) : setMap m k v x = m x := by
  simp [setMap, h]

/-- Updating a pointwise-defined weight at one key of a duplicate-free list
shifts the mapped sum by exactly the change at that key. -/
theorem map_sum_update {l : List String} (w w' : String → Nat) {x : String}
    (hl : l.Nodup) (hx : x ∈ l) (hother : ∀ y, y ≠ x → w' y = w y) :
    (l.map w').sum + w x = (l.map w).sum + w' x := by
  induction l with
  | nil => cases hx
  | cons a t ih =>
    rcases List.nodup_cons.mp hl with ⟨ha, ht⟩
    rcases List.mem_cons.mp hx with rfl | hxt
    · have hmap : t.map w' = t.map w :=
        List.map_congr_left (fun y hy => hother y (fun hyx => ha (hyx ▸ hy)))
      simp only [List.map_cons, List.sum_cons, hmap]
      omega
    · have hax : a ≠ x := fun h => ha (h ▸ hxt)
      have := ih ht hxt
      simp only [List.map_cons, List.sum_cons, hother a hax]
      omega

/-- A single element's weight is bounded by the mapped sum. -/
theorem le_map_sum_of_mem {l : List String} {w : String → Nat} {x : String}
    (hx : x ∈ l) : w x ≤ (l.map w).sum :=
  List.le_sum_of_mem (List.mem_map_of_mem w hx)

theorem likesWeight_eq_of_memes_eq {c c' : Contract} {y : String} (u : String)
    (h : c'.memes y = c.memes y) : likesWeight c' u y = likesWeight c u y := by
  simp [likesWeight, h]

theorem commentsWeight_eq_of_memes_eq {c c' : Contract} {y : String} (u : String)
    (h : c'.memes y = c.memes y) : commentsWeight c' u y = commentsWeight c u y := by
  simp [commentsWeight, h]

/-- The cross-store consistency invariant maintained by every public call:
the registry is duplicate-free and lists exactly the minted ids, like sets
are duplicate-free and attached only to minted ids, every record's counters
agree with its like set and comment log, and every identity's stored totals
agree with the records it owns. -/
structure LedgerInv (c : Contract) : Prop where
  regNodup : c.all_memes.Nodup
  regKeys : ∀ id : String, id ∈ c.all_memes ↔ (c.memes id).isSome = true
  likesNodup : ∀ id : String, (likeList c id).Nodup
  likesExist : ∀ id : String,
    (c.likes id).isSome = true → (c.memes id).isSome = true
  commentsExist : ∀ id : String,
    (c.comments id).isSome = true → (c.memes id).isSome = true
  likesMatch : ∀ id m, c.memes id = some m →
    m.likes_count = (likeList c id).length
  commentsMatch : ∀ id m, c.memes id = some m →
    m.comments_count = (commentList c id).length
  statsLikes : ∀ u : String, (statsOf c u).total_likes = ownedLikesSum c u
  statsComments : ∀ u : String,
    (statsOf c u).total_comments = ownedCommentsSum c u

theorem inv_init : LedgerInv initContract := by
  constructor <;>
    simp [initContract, likeList, commentList, statsOf, UserStats.zero,
      ownedLikesSum, ownedCommentsSum]

theorem isSome_of_eq_some {α : Type} {o : Option α} {a : α} (h : o = some a) :
    o.isSome = true := by
  rw [h]; rfl

theorem eq_none_of_not_isSome {α : Type} {o : Option α}
    (h : ¬ o.isSome = true) : o = none := by
  cases o with
  | none => rfl
  | some a => simp at h

theorem inv_mint (c : Contract) (id mu ti de : String) (r : Nat)
    (caller : String) (hc : LedgerInv c) :
    LedgerInv (commit (mintMeme c id mu ti de r caller) c) := by
  by_cases hr : 100 < r
  · simp only [mintMeme, if_pos hr, commit]
    exact hc
  · by_cases hdup : (c.memes id).isSome = true
    · simp only [mintMeme, if_neg hr, if_pos hdup, commit]
      exact hc
    · have hnone : c.memes id = none := eq_none_of_not_isSome hdup
      have hidreg : id ∉ c.all_memes := fun h => hdup ((hc.regKeys id).mp h)
      have hlnone : c.likes id = none :=
        eq_none_of_not_isSome (fun h => hdup (hc.likesExist id h))
      have hcnone : c.comments id = none :=
        eq_none_of_not_isSome (fun h => hdup (hc.commentsExist id h))
      simp only [mintMeme, if_neg hr, if_neg hdup, commit]
      refine ⟨?_, ?_, ?_, ?_, ?_, ?_, ?_, ?_, ?_⟩ <;>
        dsimp only [likeList, commentList, statsOf, ownedLikesSum,
          ownedCommentsSum]
      · simp [List.nodup_append, hc.regNodup, hidreg]
      · intro y
        by_cases hy : y = id
        · subst hy
          simp [setMap_same]
        · simp [List.mem_append, hy, setMap_ne _ _ hy, hc.regKeys y]
      · intro y
        exact hc.likesNodup y
      · intro y hy
        by_cases hyid : y = id
        · subst hyid
          simp [setMap_same]
        · rw [show ((setMap c.memes id _ y)) = c.memes y from setMap_ne _ _ hyid]
          exact hc.likesExist y hy
      · intro y hy
        by_cases hyid : y = id
        · subst hyid
          simp [setMap_same]
        · rw [show ((setMap c.memes id _ y)) = c.memes y from setMap_ne _ _ hyid]
          exact hc.commentsExist y hy
      · intro y m hm
        by_cases hyid : y = id
        · subst hyid
          rw [setMap_same] at hm
          cases hm
          simp [likeList, hlnone]
        · rw [setMap_ne _ _ hyid] at hm
          exact hc.likesMatch y m hm
      · intro y m hm
        by_cases hyid : y = id
        · subst hyid
          rw [setMap_same] at hm
          cases hm
          simp [commentList, hcnone]
        · rw [setMap_ne _ _ hyid] at hm
          exact hc.commentsMatch y m hm
      · intro u
        have hmap : ∀ y ∈ c.all_memes,
            likesWeight { c with
              memes := setMap c.memes id
                ⟨id, caller, caller, mu, ti, de, r, 0, 0, 0⟩,
              all_memes := c.all_memes ++ [id] } u y = likesWeight c u y :=
          fun y hy => likesWeight_eq_of_memes_eq u
            (setMap_ne _ _ (fun h => hidreg (h ▸ hy)))
        simp only [ownedLikesSum, statsOf, List.map_append,
          List.map_cons, List.map_nil, List.sum_append, List.sum_cons,
          List.sum_nil, List.map_congr_left hmap]
        have hw : likesWeight { c with
              memes := setMap c.memes id
                ⟨id, caller, caller, mu, ti, de, r, 0, 0, 0⟩,
              all_memes := c.all_memes ++ [id] } u id = 0 := by
          simp only [likesWeight, setMap_same]
          split <;> rfl
        rw [hw]
        have := hc.statsLikes u
        simp only [ownedLikesSum, statsOf] at this
        omega
      · intro u
        have hmap : ∀ y ∈ c.all_memes,
            commentsWeight { c with
              memes := setMap c.memes id
                ⟨id, caller, caller, mu, ti, de, r, 0, 0, 0⟩,
              all_memes := c.all_memes ++ [id] } u y = commentsWeight c u y :=
          fun y hy => commentsWeight_eq_of_memes_eq u
            (setMap_ne _ _ (fun h => hidreg (h ▸ hy)))
        simp only [ownedCommentsSum, statsOf, List.map_append,
          List.map_cons, List.map_nil, List.sum_append, List.sum_cons,
          List.sum_nil, List.map_congr_left hmap]
        have hw : commentsWeight { c with
              memes := setMap c.memes id
                ⟨id, caller, caller, mu, ti, de, r, 0, 0, 0⟩,
              all_memes := c.all_memes ++ [id] } u id = 0 := by
          simp only [commentsWeight, setMap_same]
          split <;> rfl
        rw [hw]
        have := hc.statsComments u
        simp only [ownedCommentsSum, statsOf] at this
        omega


/-- Any state that differs from an invariant state exactly as a successful
`like_meme mid` by `u` does still satisfies the invariant. -/
theorem inv_of_like_shape (c c' : Contract) (mid u : String) (meme : MemeNFT)
    (t : Nat) (hc : LedgerInv c)
    (hm : c.memes mid = some meme)
    (hu : u ∉ likeList c mid)
    (hreg : c'.all_memes = c.all_memes)
    (hmemes_mid : c'.memes mid = some { meme with
      likes_count := meme.likes_count + 1, last_like_timestamp := t })
    (hmemes : ∀ y, y ≠ mid → c'.memes y = c.memes y)
    (hlikes_mid : c'.likes mid = some (u :: likeList c mid))
    (hlikes : ∀ y, y ≠ mid → c'.likes y = c.likes y)
    (hcomments : ∀ y, c'.comments y = c.comments y)
    (hstats_o : c'.user_stats meme.owner_id =
      some { statsOf c meme.owner_id with
        total_likes := (statsOf c meme.owner_id).total_likes + 1 })
    (hstats : ∀ v, v ≠ meme.owner_id → c'.user_stats v = c.user_stats v) :
    LedgerInv c' := by
  have hmid_mem : mid ∈ c.all_memes :=
    (hc.regKeys mid).mpr (isSome_of_eq_some hm)
  refine ⟨?_, ?_, ?_, ?_, ?_, ?_, ?_, ?_, ?_⟩
  · rw [hreg]; exact hc.regNodup
  · intro y
    rw [hreg]
    by_cases hy : y = mid
    · subst hy
      simp [hmemes_mid, hmid_mem]
    · rw [hmemes y hy]; exact hc.regKeys y
  · intro y
    by_cases hy : y = mid
    · subst hy
      simp only [likeList]
      rw [hlikes_mid]
      exact List.nodup_cons.mpr ⟨hu, hc.likesNodup _⟩
    · simp only [likeList]
      rw [hlikes y hy]
      exact hc.likesNodup y
  · intro y hy
    by_cases hyid : y = mid
    · subst hyid
      simp [hmemes_mid]
    · rw [hlikes y hyid] at hy
      rw [hmemes y hyid]
      exact hc.likesExist y hy
  · intro y hy
    rw [hcomments y] at hy
    by_cases hyid : y = mid
    · subst hyid
      simp [hmemes_mid]
    · rw [hmemes y hyid]
      exact hc.commentsExist y hy
  · intro y m hm'
    by_cases hyid : y = mid
    · subst hyid
      rw [hmemes_mid] at hm'
      cases hm'
      simp only [likeList]
      rw [hlikes_mid]
      have := hc.likesMatch _ meme hm
      simp only [likeList] at this ⊢
      simp [this]
    · rw [hmemes y hyid] at hm'
      simp only [likeList]
      rw [hlikes y hyid]
      exact hc.likesMatch y m hm'
  · intro y m hm'
    have hcm : commentList c' y = commentList c y := by
      unfold commentList; rw [hcomments y]
    by_cases hyid : y = mid
    · subst hyid
      rw [hmemes_mid] at hm'
      cases hm'
      rw [hcm]
      exact hc.commentsMatch _ meme hm
    · rw [hmemes y hyid] at hm'
      rw [hcm]
      exact hc.commentsMatch y m hm'
  · intro v
    have hother : ∀ y, y ≠ mid → likesWeight c' v y = likesWeight c v y :=
      fun y hy => likesWeight_eq_of_memes_eq v (hmemes y hy)
    have key := map_sum_update (likesWeight c v) (likesWeight c' v)
      hc.regNodup hmid_mem hother
    have hw : likesWeight c v mid =
        if meme.owner_id = v then meme.likes_count else 0 := by
      simp [likesWeight, hm]
    have hw' : likesWeight c' v mid =
        if meme.owner_id = v then meme.likes_count + 1 else 0 := by
      simp [likesWeight, hmemes_mid]
    have h1 := hc.statsLikes v
    unfold ownedLikesSum at h1 ⊢
    unfold statsOf at h1 ⊢
    rw [hreg]
    by_cases hv : v = meme.owner_id
    · subst hv
      rw [hstats_o]
      rw [if_pos rfl] at hw hw'
      simp only [Option.getD_some]
      unfold statsOf
      omega
    · rw [hstats v hv]
      rw [if_neg (fun h => hv h.symm)] at hw hw'
      omega
  · intro v
    have hother : ∀ y, y ≠ mid → commentsWeight c' v y = commentsWeight c v y :=
      fun y hy => commentsWeight_eq_of_memes_eq v (hmemes y hy)
    have key := map_sum_update (commentsWeight c v)
      (commentsWeight c' v) hc.regNodup hmid_mem hother
    have hw : commentsWeight c v mid =
        if meme.owner_id = v then meme.comments_count else 0 := by
      simp [commentsWeight, hm]
    have hw' : commentsWeight c' v mid =
        if meme.owner_id = v then meme.comments_count else 0 := by
      simp [commentsWeight, hmemes_mid]
    have h1 := hc.statsComments v
    unfold ownedCommentsSum at h1 ⊢
    unfold statsOf at h1 ⊢
    rw [hreg]
    by_cases hv : v = meme.owner_id
    · subst hv
      rw [hstats_o]
      simp only [Option.getD_some]
      unfold statsOf
      omega
    · rw [hstats v hv]
      omega

theorem inv_like (c : Contract) (mid u : String) (t : Nat) (hc : LedgerInv c) :
    LedgerInv (commit (likeMeme c mid u t) c) := by
  cases hm : c.memes mid with
  | none => simp only [likeMeme, hm, commit]; exact hc
  | some meme =>
    by_cases hu : u ∈ (c.likes mid).getD []
    · simp only [likeMeme, hm, if_pos hu, commit]
      exact hc
    · simp only [likeMeme, hm, if_neg hu, commit]
      refine inv_of_like_shape c _ mid u meme t hc hm hu rfl
        (setMap_same _ _ _) (fun y hy => setMap_ne _ _ hy)
        (setMap_same _ _ _) (fun y hy => setMap_ne _ _ hy)
        (fun y => rfl) (setMap_same _ _ _) (fun v hv => setMap_ne _ _ hv)

/-- Any state that differs from an invariant state exactly as a successful
`unlike_meme mid` by `u` does still satisfies the invariant. -/
theorem inv_of_unlike_shape (c c' : Contract) (mid u : String) (meme : MemeNFT)
    (s : List String) (hc : LedgerInv c)
    (hm : c.memes mid = some meme)
    (hs : c.likes mid = some s)
    (hu : u ∈ s)
    (hreg : c'.all_memes = c.all_memes)
    (hmemes_mid : c'.memes mid = some { meme with
      likes_count := meme.likes_count - 1 })
    (hmemes : ∀ y, y ≠ mid → c'.memes y = c.memes y)
    (hlikes_mid : c'.likes mid = some (s.erase u))
    (hlikes : ∀ y, y ≠ mid → c'.likes y = c.likes y)
    (hcomments : ∀ y, c'.comments y = c.comments y)
    (hstats_o : c'.user_stats meme.owner_id =
      some { statsOf c meme.owner_id with
        total_likes := (statsOf c meme.owner_id).total_likes - 1 })
    (hstats : ∀ v, v ≠ meme.owner_id → c'.user_stats v = c.user_stats v) :
    LedgerInv c' := by
  have hmid_mem : mid ∈ c.all_memes :=
    (hc.regKeys mid).mpr (isSome_of_eq_some hm)
  have hsn : s.Nodup := by
    have := hc.likesNodup mid
    simp only [likeList] at this
    rw [hs] at this
    simpa using this
  have hlen : meme.likes_count = s.length := by
    have := hc.likesMatch mid meme hm
    simp only [likeList] at this
    rw [hs] at this
    simpa using this
  have hpos : 0 < s.length := List.length_pos.mpr (List.ne_nil_of_mem hu)
  have herase : (s.erase u).length + 1 = s.length := List.length_erase_add_one hu
  refine ⟨?_, ?_, ?_, ?_, ?_, ?_, ?_, ?_, ?_⟩
  · rw [hreg]; exact hc.regNodup
  · intro y
    rw [hreg]
    by_cases hy : y = mid
    · subst hy
      simp [hmemes_mid, hmid_mem]
    · rw [hmemes y hy]; exact hc.regKeys y
  · intro y
    by_cases hy : y = mid
    · subst hy
      simp only [likeList]
      rw [hlikes_mid]
      simpa using hsn.erase u
    · simp only [likeList]
      rw [hlikes y hy]
      exact hc.likesNodup y
  · intro y hy
    by_cases hyid : y = mid
    · subst hyid
      simp [hmemes_mid]
    · rw [hlikes y hyid] at hy
      rw [hmemes y hyid]
      exact hc.likesExist y hy
  · intro y hy
    rw [hcomments y] at hy
    by_cases hyid : y = mid
    · subst hyid
      simp [hmemes_mid]
    · rw [hmemes y hyid]
      exact hc.commentsExist y hy
  · intro y m hm'
    by_cases hyid : y = mid
    · subst hyid
      rw [hmemes_mid] at hm'
      cases hm'
      simp only [likeList]
      rw [hlikes_mid]
      simp only [Option.getD_some]
      omega
    · rw [hmemes y hyid] at hm'
      simp only [likeList]
      rw [hlikes y hyid]
      exact hc.likesMatch y m hm'
  · intro y m hm'
    have hcm : commentList c' y = commentList c y := by
      unfold commentList; rw [hcomments y]
    by_cases hyid : y = mid
    · subst hyid
      rw [hmemes_mid] at hm'
      cases hm'
      rw [hcm]
      exact hc.commentsMatch _ meme hm
    · rw [hmemes y hyid] at hm'
      rw [hcm]
      exact hc.commentsMatch y m hm'
  · intro v
    have hother : ∀ y, y ≠ mid → likesWeight c' v y = likesWeight c v y :=
      fun y hy => likesWeight_eq_of_memes_eq v (hmemes y hy)
    have key := map_sum_update (likesWeight c v) (likesWeight c' v)
      hc.regNodup hmid_mem hother
    have hw : likesWeight c v mid =
        if meme.owner_id = v then meme.likes_count else 0 := by
      simp [likesWeight, hm]
    have hw' : likesWeight c' v mid =
        if meme.owner_id = v then meme.likes_count - 1 else 0 := by
      simp [likesWeight, hmemes_mid]
    have h1 := hc.statsLikes v
    unfold ownedLikesSum at h1 ⊢
    unfold statsOf at h1 ⊢
    rw [hreg]
    by_cases hv : v = meme.owner_id
    · subst hv
      rw [hstats_o]
      rw [if_pos rfl] at hw hw'
      simp only [Option.getD_some]
      unfold statsOf
      omega
    · rw [hstats v hv]
      rw [if_neg (fun h => hv h.symm)] at hw hw'
      omega
  · intro v
    have hother : ∀ y, y ≠ mid → commentsWeight c' v y = commentsWeight c v y :=
      fun y hy => commentsWeight_eq_of_memes_eq v (hmemes y hy)
    have key := map_sum_update (commentsWeight c v)
      (commentsWeight c' v) hc.regNodup hmid_mem hother
    have hw : commentsWeight c v mid =
        if meme.owner_id = v then meme.comments_count else 0 := by
      simp [commentsWeight, hm]
    have hw' : commentsWeight c' v mid =
        if meme.owner_id = v then meme.comments_count else 0 := by
      simp [commentsWeight, hmemes_mid]
    have h1 := hc.statsComments v
    unfold ownedCommentsSum at h1 ⊢
    unfold statsOf at h1 ⊢
    rw [hreg]
    by_cases hv : v = meme.owner_id
    · subst hv
      rw [hstats_o]
      simp only [Option.getD_some]
      unfold statsOf
      omega
    · rw [hstats v hv]
      omega

theorem inv_unlike (c : Contract) (mid u : String) (hc : LedgerInv c) :
    LedgerInv (commit (unlikeMeme c mid u) c) := by
  cases hm : c.memes mid with
  | none => simp only [unlikeMeme, hm, commit]; exact hc
  | some meme =>
    cases hs : c.likes mid with
    | none => simp only [unlikeMeme, hm, hs, commit]; exact hc
    | some s =>
      by_cases hu : u ∈ s
      · simp only [unlikeMeme, hm, hs, if_pos hu, commit]
        refine inv_of_unlike_shape c _ mid u meme s hc hm hs hu rfl
          (setMap_same _ _ _) (fun y hy => setMap_ne _ _ hy)
          (setMap_same _ _ _) (fun y hy => setMap_ne _ _ hy)
          (fun y => rfl) (setMap_same _ _ _) (fun v hv => setMap_ne _ _ hv)
      · simp only [unlikeMeme, hm, hs, if_neg hu, commit]
        exact hc

/-- Any state that differs from an invariant state exactly as a successful
`comment_meme mid` does still satisfies the invariant. -/
theorem inv_of_comment_shape (c c' : Contract) (mid : String) (meme : MemeNFT)
    (cm : Comment) (hc : LedgerInv c)
    (hm : c.memes mid = some meme)
    (hreg : c'.all_memes = c.all_memes)
    (hmemes_mid : c'.memes mid = some { meme with
      comments_count := meme.comments_count + 1 })
    (hmemes : ∀ y, y ≠ mid → c'.memes y = c.memes y)
    (hcomments_mid : c'.comments mid = some (commentList c mid ++ [cm]))
    (hcomments : ∀ y, y ≠ mid → c'.comments y = c.comments y)
    (hlikes : ∀ y, c'.likes y = c.likes y)
    (hstats_o : c'.user_stats meme.owner_id =
      some { statsOf c meme.owner_id with
        total_comments := (statsOf c meme.owner_id).total_comments + 1 })
    (hstats : ∀ v, v ≠ meme.owner_id → c'.user_stats v = c.user_stats v) :
    LedgerInv c' := by
  have hmid_mem : mid ∈ c.all_memes :=
    (hc.regKeys mid).mpr (isSome_of_eq_some hm)
  refine ⟨?_, ?_, ?_, ?_, ?_, ?_, ?_, ?_, ?_⟩
  · rw [hreg]; exact hc.regNodup
  · intro y
    rw [hreg]
    by_cases hy : y = mid
    · subst hy
      simp [hmemes_mid, hmid_mem]
    · rw [hmemes y hy]; exact hc.regKeys y
  · intro y
    simp only [likeList]
    rw [hlikes y]
    exact hc.likesNodup y
  · intro y hy
    rw [hlikes y] at hy
    by_cases hyid : y = mid
    · subst hyid
      simp [hmemes_mid]
    · rw [hmemes y hyid]
      exact hc.likesExist y hy
  · intro y hy
    by_cases hyid : y = mid
    · subst hyid
      simp [hmemes_mid]
    · rw [hcomments y hyid] at hy
      rw [hmemes y hyid]
      exact hc.commentsExist y hy
  · intro y m hm'
    have hlk : likeList c' y = likeList c y := by
      unfold likeList; rw [hlikes y]
    by_cases hyid : y = mid
    · subst hyid
      rw [hmemes_mid] at hm'
      cases hm'
      rw [hlk]
      exact hc.likesMatch _ meme hm
    · rw [hmemes y hyid] at hm'
      rw [hlk]
      exact hc.likesMatch y m hm'
  · intro y m hm'
    by_cases hyid : y = mid
    · subst hyid
      rw [hmemes_mid] at hm'
      cases hm'
      simp only [commentList]
      rw [hcomments_mid]
      have := hc.commentsMatch _ meme hm
      simp only [commentList] at this ⊢
      simp [this]
    · rw [hmemes y hyid] at hm'
      simp only [commentList]
      rw [hcomments y hyid]
      exact hc.commentsMatch y m hm'
  · intro v
    have hother : ∀ y, y ≠ mid → likesWeight c' v y = likesWeight c v y :=
      fun y hy => likesWeight_eq_of_memes_eq v (hmemes y hy)
    have key := map_sum_update (likesWeight c v) (likesWeight c' v)
      hc.regNodup hmid_mem hother
    have hw : likesWeight c v mid =
        if meme.owner_id = v then meme.likes_count else 0 := by
      simp [likesWeight, hm]
    have hw' : likesWeight c' v mid =
        if meme.owner_id = v then meme.likes_count else 0 := by
      simp [likesWeight, hmemes_mid]
    have h1 := hc.statsLikes v
    unfold ownedLikesSum at h1 ⊢
    unfold statsOf at h1 ⊢
    rw [hreg]
    by_cases hv : v = meme.owner_id
    · subst hv
      rw [hstats_o]
      simp only [Option.getD_some]
      unfold statsOf
      omega
    · rw [hstats v hv]
      omega
  · intro v
    have hother : ∀ y, y ≠ mid → commentsWeight c' v y = commentsWeight c v y :=
      fun y hy => commentsWeight_eq_of_memes_eq v (hmemes y hy)
    have key := map_sum_update (commentsWeight c v)
      (commentsWeight c' v) hc.regNodup hmid_mem hother
    have hw : commentsWeight c v mid =
        if meme.owner_id = v then meme.comments_count else 0 := by
      simp [commentsWeight, hm]
    have hw' : commentsWeight c' v mid =
        if meme.owner_id = v then meme.comments_count + 1 else 0 := by
      simp [commentsWeight, hmemes_mid]
    have h1 := hc.statsComments v
    unfold ownedCommentsSum at h1 ⊢
    unfold statsOf at h1 ⊢
    rw [hreg]
    by_cases hv : v = meme.owner_id
    · subst hv
      rw [hstats_o]
      rw [if_pos rfl] at hw hw'
      simp only [Option.getD_some]
      unfold statsOf
      omega
    · rw [hstats v hv]
      rw [if_neg (fun h => hv h.symm)] at hw hw'
      omega

theorem inv_comment (c : Contract) (mid text u : String) (t : Nat)
    (hc : LedgerInv c) :
    LedgerInv (commit (commentMeme c mid text u t) c) := by
  cases hm : c.memes mid with
  | none => simp only [commentMeme, hm, commit]; exact hc
  | some meme =>
    by_cases he : (rustTrim text).isEmpty
    · simp only [commentMeme, hm, if_pos he, commit]; exact hc
    · by_cases hl : 500 < rustLen text
      · simp only [commentMeme, hm, if_neg he, if_pos hl, commit]; exact hc
      · simp only [commentMeme, hm, if_neg he, if_neg hl, commit]
        refine inv_of_comment_shape c _ mid meme
          ⟨u, rustTrim text, t⟩ hc hm rfl
          (setMap_same _ _ _) (fun y hy => setMap_ne _ _ hy)
          (setMap_same _ _ _) (fun y hy => setMap_ne _ _ hy)
          (fun y => rfl) (setMap_same _ _ _) (fun v hv => setMap_ne _ _ hv)

theorem inv_applyOp (c : Contract) (op : Op) (hc : LedgerInv c) :
    LedgerInv (applyOp c op) := by
  cases op with
  | mint id mu ti de r caller => exact inv_mint c id mu ti de r caller hc
  | like mid caller time => exact inv_like c mid caller time hc
  | unlike mid caller => exact inv_unlike c mid caller hc
  | comment mid text caller time => exact inv_comment c mid text caller time hc

theorem inv_runOps (c : Contract) (ops : List Op) (hc : LedgerInv c) :
    LedgerInv (runOps c ops) := by
  induction ops generalizing c with
  | nil => exact hc
  | cons op rest ih => exact ih (applyOp c op) (inv_applyOp c op hc)

/-- Every reachable ledger state satisfies the cross-store invariant. -/
theorem inv_reachable (c : Contract) (h : Reachable c) : LedgerInv c := by
  obtain ⟨ops, hops⟩ := h
  rw [← hops]
  exact inv_runOps initContract ops inv_init

/-- A small concrete history: a mint, a like and a comment on meme `m1`. -/
def demoOps : List Op :=
  [Op.mint "m1" "url" "title" "desc" 10 "alice",
   Op.like "m1" "bob" 5,
   Op.comment "m1" " nice " "carol" 7]

/-- The state reached by `demoOps`. -/
def demoState : Contract := runOps initContract demoOps

/-- The record stored for `m1` in `demoState`. -/
def demoMeme : MemeNFT :=
  ⟨"m1", "alice", "alice", "url", "title", "desc", 10, 1, 1, 5⟩

/-- C1: in every reachable state, every minted record's `likes_count` is the
cardinality of its like set and its `comments_count` is the length of its
comment log (both stores counting as empty when never created). -/
theorem likes_comments_count_agreement (c : Contract) (h : Reachable c)
    (id : String) (m : MemeNFT) (hm : c.memes id = some m) :
    m.likes_count = (likeList c id).toFinset.card ∧
    m.comments_count = (commentList c id).length := by
  have hc := inv_reachable c h
  refine ⟨?_, hc.commentsMatch id m hm⟩
  rw [List.toFinset_card_of_nodup (hc.likesNodup id)]
  exact hc.likesMatch id m hm

/-- Witness for C1 at the concrete state `demoState`. -/
theorem likes_comments_count_agreement_witness :
    demoMeme.likes_count = (likeList demoState "m1").toFinset.card ∧
    demoMeme.comments_count = (commentList demoState "m1").length :=
  likes_comments_count_agreement demoState ⟨demoOps, rfl⟩ "m1" demoMeme
    (by decide)

/-- C2: in every reachable state, every identity's stored `total_likes` equals
the sum of `likes_count` over the records it owns, and `total_comments` the
sum of `comments_count` (identities with no stored stats counting as zero). -/
theorem user_stats_aggregate_agreement (c : Contract) (h : Reachable c)
    (u : String) :
    (statsOf c u).total_likes = ownedLikesSum c u ∧
    (statsOf c u).total_comments = ownedCommentsSum c u :=
  ⟨(inv_reachable c h).statsLikes u, (inv_reachable c h).statsComments u⟩

/-- Witness for C2 at the concrete state `demoState`, identity `alice`. -/
theorem user_stats_aggregate_agreement_witness :
    (statsOf demoState "alice").total_likes = ownedLikesSum demoState "alice" ∧
    (statsOf demoState "alice").total_comments =
      ownedCommentsSum demoState "alice" :=
  user_stats_aggregate_agreement demoState ⟨demoOps, rfl⟩ "alice"

/-- C3 counterexample: with `m1` already minted and a royalty of 101, the
code rejects with the invalid-royalty error, not the duplicate-identifier
error the claim requires for an already-present id. -/
theorem mint_error_priority_counterexample :
    ((runOps initContract [Op.mint "m1" "u" "t" "d" 10 "alice"]).memes
      "m1").isSome = true ∧
    errOf (mintMeme (runOps initContract [Op.mint "m1" "u" "t" "d" 10 "alice"])
      "m1" "u2" "t2" "d2" 101 "bob") = some Err.invalidRoyalty ∧
    Err.invalidRoyalty ≠ Err.duplicateId := by
  decide

/-- C3 amended: `mint_meme` fails with the invalid-royalty error whenever
`royalty > 100`; otherwise, if the id is already present it fails with the
duplicate-identifier error; in either failure case every store is left
unchanged. -/
theorem mint_error_conditions (c : Contract) (id mu ti de : String) (r : Nat)
    (caller : String) :
    (100 < r → mintMeme c id mu ti de r caller = .error .invalidRoyalty) ∧
    (r ≤ 100 → (c.memes id).isSome = true →
      mintMeme c id mu ti de r caller = .error .duplicateId) ∧
    (∀ e, mintMeme c id mu ti de r caller = .error e →
      applyOp c (Op.mint id mu ti de r caller) = c) := by
  refine ⟨?_, ?_, ?_⟩
  · intro hr
    simp [mintMeme, hr]
  · intro hr hd
    simp [mintMeme, Nat.not_lt.mpr hr, hd]
  · intro e he
    simp [applyOp, commit, he]

/-- Witness for the amended C3: a royalty of 101 is rejected on the fresh
ledger. -/
theorem mint_error_conditions_witness :
    mintMeme initContract "m1" "u" "t" "d" 101 "alice" =
      .error .invalidRoyalty :=
  (mint_error_conditions initContract "m1" "u" "t" "d" 101 "alice").1
    (by decide)

/-- C4: for reachable states, liking an already-liked meme fails with the
already-liked error, unliking a meme the user does not currently like fails,
like/unlike of an absent id fail with the not-found error, and every failing
call leaves the state unchanged. -/
theorem like_unlike_error_conditions (c : Contract) (h : Reachable c)
    (mid u : String) (t : Nat) :
    (c.memes mid = none →
      likeMeme c mid u t = .error .memeNotFound ∧
      unlikeMeme c mid u = .error .memeNotFound) ∧
    (u ∈ likeList c mid → likeMeme c mid u t = .error .alreadyLiked) ∧
    (u ∉ likeList c mid → ∃ e, unlikeMeme c mid u = .error e) ∧
    (∀ e, likeMeme c mid u t = .error e → applyOp c (Op.like mid u t) = c) ∧
    (∀ e, unlikeMeme c mid u = .error e → applyOp c (Op.unlike mid u) = c) := by
  have hc := inv_reachable c h
  refine ⟨?_, ?_, ?_, ?_, ?_⟩
  · intro hm
    exact ⟨by simp [likeMeme, hm], by simp [unlikeMeme, hm]⟩
  · intro hu
    have hsome : (c.likes mid).isSome = true := by
      cases hl : c.likes mid with
      | none => rw [likeList, hl] at hu; simp at hu
      | some s => rfl
    obtain ⟨meme, hm⟩ := Option.isSome_iff_exists.mp (hc.likesExist mid hsome)
    simp only [likeList] at hu
    simp [likeMeme, hm, hu]
  · intro hu
    cases hm : c.memes mid with
    | none => exact ⟨.memeNotFound, by simp [unlikeMeme, hm]⟩
    | some meme =>
      cases hl : c.likes mid with
      | none => exact ⟨.noLikesFound, by simp [unlikeMeme, hm, hl]⟩
      | some s =>
        have hus : u ∉ s := by
          rw [likeList, hl] at hu
          simpa using hu
        exact ⟨.notLiked, by simp [unlikeMeme, hm, hl, hus]⟩
  · intro e he
    simp [applyOp, commit, he]
  · intro e he
    simp [applyOp, commit, he]

/-- Witness for C4: `bob` liking `m1` a second time fails as already liked. -/
theorem like_unlike_error_conditions_witness :
    likeMeme demoState "m1" "bob" 9 = .error .alreadyLiked :=
  (like_unlike_error_conditions demoState ⟨demoOps, rfl⟩ "m1" "bob" 9).2.1
    (by decide)

/-- Character count never exceeds UTF-8 byte count. -/
theorem length_le_rustLen (s : String) : s.length ≤ rustLen s := by
  show s.data.length ≤ rustLen s
  unfold rustLen
  induction s.data with
  | nil => simp
  | cons ch t ih =>
    have := Char.utf8Size_pos ch
    simp only [List.length_cons, List.map_cons, List.sum_cons]
    omega

/-- A 501-character string of blanks. -/
def spaces501 : String := ⟨List.replicate 501 ' '⟩

set_option maxRecDepth 4000 in
/-- C5 counterexample: a comment of 501 blank characters exceeds the 500
length bound, yet the code rejects it with the empty-comment error, not the
too-long error the claim requires for over-long text. -/
theorem comment_too_long_counterexample :
    spaces501.length = 501 ∧ rustLen spaces501 = 501 ∧
    ((runOps initContract [Op.mint "m1" "u" "t" "d" 10 "alice"]).memes
      "m1").isSome = true ∧
    errOf (commentMeme (runOps initContract [Op.mint "m1" "u" "t" "d" 10
      "alice"]) "m1" spaces501 "bob" 7) = some Err.emptyComment := by
  decide

/-- C5 amended: on a minted meme, `comment_meme` fails with the empty-comment
error when the trimmed text is empty; it fails with the too-long error when
the original (untrimmed) text exceeds 500 characters and the trimmed text is
non-empty; any failure leaves the state unchanged; a success appends a
comment carrying the trimmed text and the call's logical timestamp. -/
theorem comment_validation (c : Contract) (mid text u : String) (t : Nat)
    (m : MemeNFT) (hm : c.memes mid = some m) :
    ((rustTrim text).isEmpty = true →
      commentMeme c mid text u t = .error .emptyComment) ∧
    ((rustTrim text).isEmpty = false → 500 < text.length →
      commentMeme c mid text u t = .error .commentTooLong) ∧
    (∀ e, commentMeme c mid text u t = .error e →
      applyOp c (Op.comment mid text u t) = c) ∧
    (∀ c', commentMeme c mid text u t = .ok c' →
      commentList c' mid = commentList c mid ++ [⟨u, rustTrim text, t⟩]) := by
  refine ⟨?_, ?_, ?_, ?_⟩
  · intro he
    simp [commentMeme, hm, he]
  · intro he hlen
    have hby : 500 < rustLen text := lt_of_lt_of_le hlen (length_le_rustLen text)
    simp [commentMeme, hm, he, hby]
  · intro e he
    simp [applyOp, commit, he]
  · intro c' h
    by_cases he : (rustTrim text).isEmpty
    · simp [commentMeme, hm, he] at h
    · by_cases hl : 500 < rustLen text
      · simp [commentMeme, hm, he, hl] at h
      · simp only [commentMeme, hm, Bool.not_eq_true] at h
        rw [if_neg (by simp [he]), if_neg hl] at h
        cases h
        simp [commentList, setMap_same]

/-- Witness for the amended C5: an all-blank comment on `m1` is rejected as
empty. -/
theorem comment_validation_witness :
    commentMeme demoState "m1" "   " "dave" 8 = .error .emptyComment :=
  (comment_validation demoState "m1" "   " "dave" 8 demoMeme (by decide)).1
    (by decide)

theorem filterMap_range_none (l : List String) (g : String → Option MemeNFT)
    (n : Nat) : ∀ f, l.length ≤ f →
    (List.range' f n).filterMap (fun i => (l.get? i).bind g) = [] := by
  induction n with
  | zero => intro f _; rfl
  | succ n ih =>
    intro f hf
    have hnone : l.get? f = none := List.get?_eq_none.mpr hf
    simp only [List.range'_succ, List.filterMap_cons, hnone, Option.none_bind]
    exact ih (f + 1) (Nat.le_succ_of_le hf)

/-- The index loop of `get_all_memes` visits exactly the slice of the
registry between the two bounds. -/
theorem filterMap_range_get (l : List String) (g : String → Option MemeNFT) :
    ∀ (n f : Nat),
    (List.range' f n).filterMap (fun i => (l.get? i).bind g) =
      ((l.drop f).take n).filterMap g := by
  intro n
  induction n with
  | zero => intro f; simp
  | succ n ih =>
    intro f
    cases hl : l.get? f with
    | none =>
      have hf : l.length ≤ f := List.get?_eq_none.mp hl
      rw [List.drop_eq_nil_of_le hf]
      simp only [List.take_nil, List.filterMap_nil]
      exact filterMap_range_none l g (n + 1) f hf
    | some a =>
      have hsome : l[f]? = some a := by rw [← List.get?_eq_getElem?]; exact hl
      obtain ⟨hfl, hget⟩ := List.getElem?_eq_some.mp hsome
      rw [List.drop_eq_getElem_cons hfl, List.range'_succ]
      simp only [List.take_succ_cons, List.filterMap_cons, hl,
        Option.some_bind, hget]
      rw [ih (f + 1)]

theorem filterMap_length_of_all_isSome {l : List String}
    {g : String → Option MemeNFT} (h : ∀ x ∈ l, (g x).isSome = true) :
    (l.filterMap g).length = l.length := by
  induction l with
  | nil => rfl
  | cons a t ih =>
    obtain ⟨b, hb⟩ := Option.isSome_iff_exists.mp (h a (List.mem_cons_self a t))
    simp only [List.filterMap_cons, hb, List.length_cons]
    rw [ih (fun x hx => h x (List.mem_cons_of_mem a hx))]

/-- C6: `get_all_memes` returns exactly the records of the registry slots
between `from_index` (default 0) and `from_index` plus the clamped limit
(default 50, at most 100); its length is the size of that slot range, never
exceeds the clamped limit, and an out-of-range `from_index` yields the empty
sequence. -/
theorem pagination_spec (c : Contract) (h : Reachable c)
    (from_index limit : Option Nat) :
    getAllMemes c from_index limit =
      ((c.all_memes.drop (from_index.getD 0)).take
        (min (limit.getD 50) 100)).filterMap c.memes ∧
    (getAllMemes c from_index limit).length =
      min (from_index.getD 0 + min (limit.getD 50) 100)
        c.all_memes.length - from_index.getD 0 ∧
    (getAllMemes c from_index limit).length ≤ min (limit.getD 50) 100 ∧
    (c.all_memes.length ≤ from_index.getD 0 →
      getAllMemes c from_index limit = []) := by
  have hc := inv_reachable c h
  have hslice : getAllMemes c from_index limit =
      ((c.all_memes.drop (from_index.getD 0)).take
        (min (from_index.getD 0 + min (limit.getD 50) 100)
          c.all_memes.length - from_index.getD 0)).filterMap c.memes :=
    filterMap_range_get c.all_memes c.memes _ _
  have hlen_drop : (c.all_memes.drop (from_index.getD 0)).length =
      c.all_memes.length - from_index.getD 0 :=
    List.length_drop (from_index.getD 0) c.all_memes
  have hall : ∀ x ∈ (c.all_memes.drop (from_index.getD 0)).take
      (min (from_index.getD 0 + min (limit.getD 50) 100)
        c.all_memes.length - from_index.getD 0),
      (c.memes x).isSome = true :=
    fun x hx => (hc.regKeys x).mp
      (List.drop_subset (from_index.getD 0) c.all_memes
        (List.take_subset _ _ hx))
  have hlen2 : (getAllMemes c from_index limit).length =
      min (from_index.getD 0 + min (limit.getD 50) 100)
        c.all_memes.length - from_index.getD 0 := by
    rw [hslice, filterMap_length_of_all_isSome hall, List.length_take,
      hlen_drop]
    omega
  refine ⟨?_, hlen2, ?_, ?_⟩
  · rw [hslice]
    have htake : (c.all_memes.drop (from_index.getD 0)).take
        (min (from_index.getD 0 + min (limit.getD 50) 100)
          c.all_memes.length - from_index.getD 0) =
        (c.all_memes.drop (from_index.getD 0)).take
          (min (limit.getD 50) 100) := by
      rw [List.take_eq_take]
      rw [hlen_drop]
      omega
    rw [htake]
  · rw [hlen2]
    omega
  · intro hle
    rw [hslice]
    have hn0 : min (from_index.getD 0 + min (limit.getD 50) 100)
        c.all_memes.length - from_index.getD 0 = 0 := by
      omega
    rw [hn0]
    simp

/-- Witness for C6 at `demoState` with `from_index = 5` past the registry
end and `limit = 3`. -/
theorem pagination_spec_witness :
    getAllMemes demoState (some 5) (some 3) =
      ((demoState.all_memes.drop ((some 5 : Option Nat).getD 0)).take
        (min ((some 3 : Option Nat).getD 50) 100)).filterMap
        demoState.memes ∧
    (getAllMemes demoState (some 5) (some 3)).length =
      min ((some 5 : Option Nat).getD 0 +
        min ((some 3 : Option Nat).getD 50) 100)
        demoState.all_memes.length - (some 5 : Option Nat).getD 0 ∧
    (getAllMemes demoState (some 5) (some 3)).length ≤
      min ((some 3 : Option Nat).getD 50) 100 ∧
    (demoState.all_memes.length ≤ (some 5 : Option Nat).getD 0 →
      getAllMemes demoState (some 5) (some 3) = []) :=
  pagination_spec demoState ⟨demoOps, rfl⟩ (some 5) (some 3)

/-- C7: a successful mint stores a record whose owner and creator are the
caller, with the supplied metadata and zeroed counters, appends the id to
the registry, and touches no other store. -/
theorem mint_success_postconditions (c : Contract) (id mu ti de : String)
    (r : Nat) (caller : String) (hnone : c.memes id = none) (hr : r ≤ 100) :
    ∃ c', mintMeme c id mu ti de r caller = .ok c' ∧
      c'.memes id = some ⟨id, caller, caller, mu, ti, de, r, 0, 0, 0⟩ ∧
      c'.all_memes = c.all_memes ++ [id] ∧
      getMemesCount c' = getMemesCount c + 1 ∧
      (∀ y, y ≠ id → c'.memes y = c.memes y) ∧
      c'.likes = c.likes ∧ c'.comments = c.comments ∧
      c'.user_stats = c.user_stats ∧ c'.listings = c.listings := by
  refine ⟨{ c with
      memes := setMap c.memes id ⟨id, caller, caller, mu, ti, de, r, 0, 0, 0⟩
      all_memes := c.all_memes ++ [id] }, ?_, ?_, rfl, ?_, ?_, rfl, rfl, rfl,
      rfl⟩
  · simp [mintMeme, Nat.not_lt.mpr hr, hnone]
  · exact setMap_same _ _ _
  · simp [getMemesCount]
  · exact fun y hy => setMap_ne _ _ hy

/-- Witness for C7: minting `m1` on the fresh ledger. -/
theorem mint_success_postconditions_witness :
    ∃ c', mintMeme initContract "m1" "u" "t" "d" 10 "alice" = .ok c' ∧
      c'.memes "m1" =
        some ⟨"m1", "alice", "alice", "u", "t", "d", 10, 0, 0, 0⟩ ∧
      c'.all_memes = initContract.all_memes ++ ["m1"] ∧
      getMemesCount c' = getMemesCount initContract + 1 ∧
      (∀ y, y ≠ "m1" → c'.memes y = initContract.memes y) ∧
      c'.likes = initContract.likes ∧ c'.comments = initContract.comments ∧
      c'.user_stats = initContract.user_stats ∧
      c'.listings = initContract.listings :=
  mint_success_postconditions initContract "m1" "u" "t" "d" 10 "alice" rfl
    (by decide)

/-- C8: a successful unlike leaves `last_like_timestamp` and every record
field other than `likes_count` unchanged, and leaves every other record
unchanged. -/
theorem unlike_frame_conditions (c c' : Contract) (mid u : String)
    (h : unlikeMeme c mid u = .ok c') :
    ∃ m m', c.memes mid = some m ∧ c'.memes mid = some m' ∧
      m'.last_like_timestamp = m.last_like_timestamp ∧
      m'.id = m.id ∧ m'.owner_id = m.owner_id ∧ m'.creator_id = m.creator_id ∧
      m'.media_url = m.media_url ∧ m'.title = m.title ∧
      m'.description = m.description ∧ m'.royalty = m.royalty ∧
      m'.comments_count = m.comments_count ∧
      (∀ y, y ≠ mid → c'.memes y = c.memes y) := by
  cases hm : c.memes mid with
  | none => simp [unlikeMeme, hm] at h
  | some meme =>
    cases hs : c.likes mid with
    | none => simp [unlikeMeme, hm, hs] at h
    | some s =>
      by_cases hu : u ∈ s
      · simp only [unlikeMeme, hm, hs, if_pos hu] at h
        cases h
        exact ⟨meme, _, rfl, setMap_same _ _ _, rfl, rfl, rfl, rfl, rfl, rfl,
          rfl, rfl, rfl, fun y hy => setMap_ne _ _ hy⟩
      · simp [unlikeMeme, hm, hs, hu] at h

/-- A mint followed by a like of `m1`, setting up a succeeding unlike. -/
def demo2Ops : List Op :=
  [Op.mint "m1" "url" "title" "desc" 10 "alice", Op.like "m1" "bob" 5]

/-- Witness for C8: `bob` unliking `m1` after liking it. -/
theorem unlike_frame_conditions_witness :
    ∃ m m', (runOps initContract demo2Ops).memes "m1" = some m ∧
      (runOps initContract (demo2Ops ++ [Op.unlike "m1" "bob"])).memes "m1" =
        some m' ∧
      m'.last_like_timestamp = m.last_like_timestamp ∧
      m'.id = m.id ∧ m'.owner_id = m.owner_id ∧ m'.creator_id = m.creator_id ∧
      m'.media_url = m.media_url ∧ m'.title = m.title ∧
      m'.description = m.description ∧ m'.royalty = m.royalty ∧
      m'.comments_count = m.comments_count ∧
      (∀ y, y ≠ "m1" →
        (runOps initContract (demo2Ops ++ [Op.unlike "m1" "bob"])).memes y =
          (runOps initContract demo2Ops).memes y) :=
  unlike_frame_conditions (runOps initContract demo2Ops)
    (runOps initContract (demo2Ops ++ [Op.unlike "m1" "bob"])) "m1" "bob"
    (by rfl)

/-- C9: `get_likes` returns the cardinality of the like set (0 when none
exists) and `get_comments` returns the stored comment log in insertion
order (empty when none exists), for any id including never-minted ones;
both are pure reads of the state. -/
theorem query_likes_comments (c : Contract) (h : Reachable c)
    (mid : String) :
    getLikes c mid = (likeList c mid).toFinset.card ∧
    (c.likes mid = none → getLikes c mid = 0) ∧
    getComments c mid = commentList c mid ∧
    (c.comments mid = none → getComments c mid = []) := by
  have hc := inv_reachable c h
  refine ⟨?_, ?_, ?_, ?_⟩
  · rw [List.toFinset_card_of_nodup (hc.likesNodup mid)]
    cases hl : c.likes mid with
    | none => simp [getLikes, hl, likeList]
    | some s => simp [getLikes, hl, likeList]
  · intro hl
    simp [getLikes, hl]
  · cases hl : c.comments mid with
    | none => simp [getComments, hl, commentList]
    | some s => simp [getComments, hl, commentList]
  · intro hl
    simp [getComments, hl]

/-- Witness for C9 at `demoState` on the never-minted id `zzz`. -/
theorem query_likes_comments_witness :
    getLikes demoState "zzz" = (likeList demoState "zzz").toFinset.card ∧
    (demoState.likes "zzz" = none → getLikes demoState "zzz" = 0) ∧
    getComments demoState "zzz" = commentList demoState "zzz" ∧
    (demoState.comments "zzz" = none → getComments demoState "zzz" = []) :=
  query_likes_comments demoState ⟨demoOps, rfl⟩ "zzz"

/-- Whether one call is a like of `id` that succeeds in state `c`. -/
def opLikesId (c : Contract) (op : Op) (id : String) : Bool :=
  match op with
  | Op.like mid u t => decide (mid = id) && isOk (likeMeme c mid u t)
  | _ => false

/-- Whether a `like_meme` call on `id` ever succeeds along a trace run from
state `c`. -/
def likeEverSucceeded (c : Contract) (ops : List Op) (id : String) : Bool :=
  match ops with
  | [] => false
  | op :: rest => opLikesId c op id || likeEverSucceeded (applyOp c op) rest id

/-- One step of the history invariant: a like set exists for `id` after a
call exactly when it existed before or the call was a successful like of
`id`. -/
theorem likes_isSome_applyOp (c : Contract) (op : Op) (id : String) :
    ((applyOp c op).likes id).isSome =
      ((c.likes id).isSome || opLikesId c op id) := by
  cases op with
  | mint i mu ti de r caller =>
    simp only [opLikesId, Bool.or_false]
    by_cases hr : 100 < r
    · simp [applyOp, mintMeme, hr, commit]
    · by_cases hd : (c.memes i).isSome
      · simp [applyOp, mintMeme, hr, hd, commit]
      · simp [applyOp, mintMeme, hr, hd, commit]
  | like mid u t =>
    cases hm : c.memes mid with
    | none =>
      simp [applyOp, likeMeme, hm, commit, opLikesId, isOk]
    | some meme =>
      by_cases hu : u ∈ (c.likes mid).getD []
      · simp [applyOp, likeMeme, hm, hu, commit, opLikesId, isOk]
      · by_cases hid : id = mid
        · subst hid
          simp [applyOp, likeMeme, hm, hu, commit, opLikesId, isOk,
            setMap_same]
        · simp [applyOp, likeMeme, hm, hu, commit, opLikesId, isOk,
            setMap_ne _ _ hid, Ne.symm hid]
  | unlike mid u =>
    simp only [opLikesId, Bool.or_false]
    cases hm : c.memes mid with
    | none => simp [applyOp, unlikeMeme, hm, commit]
    | some meme =>
      cases hs : c.likes mid with
      | none => simp [applyOp, unlikeMeme, hm, hs, commit]
      | some s =>
        by_cases hu : u ∈ s
        · by_cases hid : id = mid
          · subst hid
            simp [applyOp, unlikeMeme, hm, hs, hu, commit, setMap_same]
          · simp [applyOp, unlikeMeme, hm, hs, hu, commit,
              setMap_ne _ _ hid]
        · simp [applyOp, unlikeMeme, hm, hs, hu, commit]
  | comment mid text u t =>
    simp only [opLikesId, Bool.or_false]
    cases hm : c.memes mid with
    | none => simp [applyOp, commentMeme, hm, commit]
    | some meme =>
      by_cases he : (rustTrim text).isEmpty
      · simp [applyOp, commentMeme, hm, he, commit]
      · by_cases hl : 500 < rustLen text
        · simp [applyOp, commentMeme, hm, he, hl, commit]
        · simp [applyOp, commentMeme, hm, he, hl, commit]

/-- History invariant: after running a trace, a like set exists for `id`
exactly when one existed initially or some like of `id` succeeded along the
trace. -/
theorem likes_isSome_runOps (ops : List Op) : ∀ (c : Contract) (id : String),
    ((runOps c ops).likes id).isSome =
      ((c.likes id).isSome || likeEverSucceeded c ops id) := by
  induction ops with
  | nil =>
    intro c id
    simp [runOps, likeEverSucceeded]
  | cons op rest ih =>
    intro c id
    show ((runOps (applyOp c op) rest).likes id).isSome = _
    rw [ih (applyOp c op) id, likes_isSome_applyOp]
    simp [likeEverSucceeded, Bool.or_assoc]

/-- C10 counterexample: on the fresh ledger no like of `m1` ever succeeded,
yet `unlike_meme` fails with the not-found error, not the no-like-history
error the claim requires. -/
theorem unlike_no_history_counterexample :
    likeEverSucceeded initContract [] "m1" = false ∧
    errOf (unlikeMeme (runOps initContract []) "m1" "bob") =
      some Err.memeNotFound ∧
    Err.memeNotFound ≠ Err.noLikesFound := by
  decide

/-- C10 amended: for a meme id minted in the reached state, `unlike_meme`
fails with the no-like-history error exactly when no like of that id ever
succeeded; once some like succeeded, the like set persists even after every
like is removed, so an unlike by a user not currently in the set fails with
the not-liked error instead. -/
theorem unlike_error_selection (ops : List Op) (id u : String)
    (hm : ((runOps initContract ops).memes id).isSome = true) :
    ((unlikeMeme (runOps initContract ops) id u = .error .noLikesFound) ↔
      likeEverSucceeded initContract ops id = false) ∧
    (likeEverSucceeded initContract ops id = true →
      u ∉ likeList (runOps initContract ops) id →
      unlikeMeme (runOps initContract ops) id u = .error .notLiked) := by
  have hL := likes_isSome_runOps ops initContract id
  have hinit : ((initContract.likes id).isSome : Bool) = false := rfl
  rw [hinit, Bool.false_or] at hL
  obtain ⟨meme, hmeme⟩ := Option.isSome_iff_exists.mp hm
  constructor
  · constructor
    · intro he
      cases hl : (runOps initContract ops).likes id with
      | none =>
        rw [hl] at hL
        exact hL.symm
      | some s =>
        by_cases hu : u ∈ s
        · simp [unlikeMeme, hmeme, hl, hu] at he
        · simp [unlikeMeme, hmeme, hl, hu] at he
    · intro hno
      have hns : ((runOps initContract ops).likes id).isSome = false := by
        rw [hL, hno]
      have hl : (runOps initContract ops).likes id = none :=
        eq_none_of_not_isSome (by simp [hns])
      simp [unlikeMeme, hmeme, hl]
  · intro hev hu
    have hs : ((runOps initContract ops).likes id).isSome = true := by
      rw [hL, hev]
    obtain ⟨s, hl⟩ := Option.isSome_iff_exists.mp hs
    have hus : u ∉ s := by
      simp only [likeList, hl] at hu
      simpa using hu
    simp [unlikeMeme, hmeme, hl, hus]

/-- A history in which `m1` is liked and then fully unliked again. -/
def demo3Ops : List Op :=
  [Op.mint "m1" "url" "title" "desc" 10 "alice",
   Op.like "m1" "bob" 5,
   Op.unlike "m1" "bob"]

/-- Witness for the amended C10: after `bob` liked and unliked `m1`, an
unlike by `carol` fails as not-liked, not as missing like history. -/
theorem unlike_error_selection_witness :
    unlikeMeme (runOps initContract demo3Ops) "m1" "carol" =
      .error .notLiked :=
  (unlike_error_selection demo3Ops "m1" "carol" (by decide)).2 (by decide)
    (by decide)
